import Mathlib

/-
Verification of the prio-server workflow-manager scheduling subsystem.

The Go sources embedded here are:
  - workflow-manager/batchpath (batch-path parsing, assembly, ordering);
  - workflow-manager/main.go (scheduleTasks, enqueueIntakeTasks,
    enqueueAggregationTask).
Go strings are modelled as lists of characters, Go functions returning
(value, error) as Option-valued functions (none models a non-nil error).
The wftime, task and utils packages are not part of the sources at hand;
the definitions taken from them are modelled from the specification and
are marked as such in their doc comments.
-/

namespace PrioWM

/-- Go strings are modelled as lists of characters. -/
abbrev Str := List Char

/-! ### Go standard-library string primitives -/

/-- Model of the recursion underlying Go strings.Split(s, "/"): returns the
current field together with the remaining fields. -/
def splitSlashAux : Str → Str × List Str
  | [] => ([], [])
  | c :: rest =>
    let p := splitSlashAux rest
    if c = '/' then ([], p.1 :: p.2) else (c :: p.1, p.2)

/-- Model of Go strings.Split(s, "/"): the list of slash-separated fields of
s, always non-empty (splitting the empty string yields one empty field). -/
def splitSlash (s : Str) : List Str :=
  (splitSlashAux s).1 :: (splitSlashAux s).2

/-- Model of Go strings.Join(parts, "/"). -/
def joinSlash : List Str → Str
  | [] => []
  | [w] => w
  | w :: ws => w ++ '/' :: joinSlash ws

/-- Model of Go strings.TrimSuffix(s, suf): drops suf from the end of s when
present, otherwise returns s unchanged. -/
def trimSuffixL (s suf : Str) : Str :=
  if suf <:+ s then s.take (s.length - suf.length) else s

/-- Value of a list of decimal digit characters, most significant first. -/
def digitsVal (ds : Str) : Nat :=
  ds.foldl (fun a c => a * 10 + (c.toNat - 48)) 0

/-- Model of Go strconv.ParseInt(s, 10, 64): an optional sign followed by at
least one decimal digit, whose value fits in a signed 64-bit integer; any
other input (including out-of-range values) is an error, modelled as none. -/
def goParseInt64 (s : Str) : Option Int :=
  let p : Bool × Str :=
    match s with
    | '+' :: rest => (false, rest)
    | '-' :: rest => (true, rest)
    | _ => (false, s)
  if p.2.isEmpty then none
  else if p.2.all Char.isDigit then
    let v : Int := if p.1 then -(digitsVal p.2 : Int) else (digitsVal p.2 : Int)
    if -(2 ^ 63) ≤ v ∧ v ≤ 2 ^ 63 - 1 then some v else none
  else none

/-! ### Go time.Date

Model of Go time.Date(y, M, d, h, m, 0, 0, time.UTC), which normalizes the
month into the year and then counts days from Go's absolute zero year
(-292277022399) through 400/100/4-year cycles; out-of-range day, hour and
minute values simply contribute their amount of time, which the code below
exploits by summing their contributions directly (Go's norm calls on day,
hour and minute redistribute units without changing that sum).  The result
is the instant in seconds on Go's absolute scale, a constant shift of Unix
seconds; equality and order of instants agree with Go's time.Time. -/

/-- Model of Go time.norm(hi, lo, base): brings lo into [0, base) moving
whole multiples of base into hi, preserving hi * base + lo. -/
def normHiLo (hi lo base : Int) : Int × Int :=
  let p : Int × Int :=
    if lo < 0 then
      let n := (-lo - 1) / base + 1
      (hi - n, lo + n * base)
    else (hi, lo)
  if p.2 ≥ base then
    let n := p.2 / base
    (p.1 + n, p.2 - n * base)
  else p

/-- Model of Go time.isLeap. -/
def isLeapYear (y : Int) : Bool :=
  y % 4 == 0 && (y % 100 != 0 || y % 400 == 0)

/-- Model of Go's daysBefore table: cumulative days before the given month
(1..12) in a non-leap year. -/
def daysBeforeMonth (m : Int) : Int :=
  if m ≤ 1 then 0
  else if m = 2 then 31
  else if m = 3 then 59
  else if m = 4 then 90
  else if m = 5 then 120
  else if m = 6 then 151
  else if m = 7 then 181
  else if m = 8 then 212
  else if m = 9 then 243
  else if m = 10 then 273
  else if m = 11 then 304
  else 334

/-- Model of Go time.daysSinceEpoch: days from the absolute zero year to the
start of the given year, via 400/100/4-year cycles. -/
def daysSinceEpochGo (year : Int) : Int :=
  let y := year + 292277022399
  let n400 := y / 400
  let y1 := y - 400 * n400
  let n100 := y1 / 100
  let y2 := y1 - 100 * n100
  let n4 := y2 / 4
  let y3 := y2 - 4 * n4
  146097 * n400 + 36524 * n100 + 1461 * n4 + 365 * y3

/-- Model of Go time.Date(year, month, day, hour, minute, 0, 0, time.UTC) as
an instant in seconds on Go's absolute time scale. -/
def goDate (year month day hour minute : Int) : Int :=
  let p := normHiLo year (month - 1) 12
  let m := p.2 + 1
  let days := daysSinceEpochGo p.1 + daysBeforeMonth m
    + (if isLeapYear p.1 ∧ 3 ≤ m then 1 else 0) + (day - 1)
  days * 86400 + hour * 3600 + minute * 60

/-! ### batchpath package -/

/-- Translated from batchpath.BatchPath: a relative path to a batch, with
presence bits for the three backing objects. -/
structure BatchPath where
  AggregationID : Str
  dateComponents : List Str
  ID : Str
  Time : Int
  metadata : Bool := false
  avro : Bool := false
  sig : Bool := false
deriving DecidableEq, Repr

/-- Translated from batchpath.New: split the batch name on "/", take the
first component as aggregation ID, the last as batch ID, require exactly
five date components in between, parse each as a decimal integer, and build
the UTC timestamp. -/
def New (batchName : Str) : Option BatchPath :=
  let pathComponents := splitSlash batchName
  let batchID := pathComponents.getLastD []
  let aggregationID := pathComponents.headD []
  match (pathComponents.drop 1).dropLast with
  | [c1, c2, c3, c4, c5] =>
    match goParseInt64 c1, goParseInt64 c2, goParseInt64 c3,
        goParseInt64 c4, goParseInt64 c5 with
    | some y, some mo, some d, some h, some mi =>
      some { AggregationID := aggregationID
             dateComponents := [c1, c2, c3, c4, c5]
             ID := batchID
             Time := goDate y mo d h mi }
    | _, _, _, _, _ => none
  | _ => none

/-- Translated from BatchPath.DateString: the date components joined by "/". -/
def BatchPath.DateString (b : BatchPath) : Str :=
  joinSlash b.dateComponents

/-- Translated from BatchPath.path: aggregation ID, date string and batch ID
joined by "/". -/
def BatchPath.path (b : BatchPath) : Str :=
  joinSlash [b.AggregationID, b.DateString, b.ID]

/-- Translated from BatchPath.isComplete: all three backing objects present. -/
def BatchPath.isComplete (b : BatchPath) : Bool :=
  b.metadata && b.avro && b.sig

/-- The suffix ".<role>" used for the header object (role is the source's
infix argument: one of batch, validity_0, validity_1). -/
def dotTag (tag : Str) : Str := '.' :: tag

/-- The suffix ".<role>.avro" used for the packet object. -/
def avroTag (tag : Str) : Str := dotTag tag ++ ".avro".toList

/-- The suffix ".<role>.sig" used for the signature object. -/
def sigTag (tag : Str) : Str := dotTag tag ++ ".sig".toList

/-- Translated from batchpath.basename: strips ".<role>", then
".<role>.avro", then ".<role>.sig" from the end of s, in that order. -/
def basenameOf (s tag : Str) : Str :=
  trimSuffixL (trimSuffixL (trimSuffixL s (dotTag tag)) (avroTag tag)) (sigTag tag)

/-- Translated from the suffix checks of batchpath.ReadyBatches: sets the
presence bit corresponding to each suffix that the object name carries. -/
def updateFlags (name tag : Str) (b : BatchPath) : BatchPath :=
  let b1 := if dotTag tag <:+ name then { b with metadata := true } else b
  let b2 := if avroTag tag <:+ name then { b1 with avro := true } else b1
  if sigTag tag <:+ name then { b2 with sig := true } else b2

/-- Replaces the batch stored under key k in the association list. -/
def updateBase (acc : List (Str × BatchPath)) (k : Str) (b : BatchPath) :
    List (Str × BatchPath) :=
  acc.map (fun p => if p.1 = k then (k, b) else p)

/-- Translated from the loop of batchpath.ReadyBatches: for each object name,
group by stripped base name, parse the base name on first sight (an
unparseable base name aborts the whole call with an error, modelled as
none), and mark the presence bit for the suffix the name carries.  Go's
map is modelled as an association list in first-insertion order. -/
def readyLoop (tag : Str) : List Str → List (Str × BatchPath) →
    Option (List (Str × BatchPath))
  | [], acc => some acc
  | name :: rest, acc =>
    let base := basenameOf name tag
    match acc.lookup base with
    | some b => readyLoop tag rest (updateBase acc base (updateFlags name tag b))
    | none =>
      match New base with
      | none => none
      | some b => readyLoop tag rest (acc ++ [(base, updateFlags name tag b)])

/-- Translated from batchpath.List.Less: batches are compared by time only.
Expressed here as the complementary non-strict order used by the model of
sort.Sort below. -/
def timeLe (a b : BatchPath) : Prop := a.Time ≤ b.Time

instance : DecidableRel timeLe :=
  fun a b => (inferInstance : Decidable (a.Time ≤ b.Time))

instance : IsTotal BatchPath timeLe :=
  ⟨fun a b => Int.le_total a.Time b.Time⟩

instance : IsTrans BatchPath timeLe :=
  ⟨fun _ _ _ h1 h2 => le_trans h1 h2⟩

/-- Translated from batchpath.ReadyBatches: run the grouping loop, keep only
complete batches, and sort.  Go iterates its map in unspecified order and
sort.Sort is not stable; the model fixes one possible behaviour: values in
first-insertion order sorted stably by the Less relation (time only). -/
def ReadyBatches (files : List Str) (tag : Str) : Option (List BatchPath) :=
  match readyLoop tag files [] with
  | none => none
  | some acc =>
    some (List.insertionSort timeLe ((acc.map Prod.snd).filter (fun b => b.isComplete)))

/-! ### wftime, task and utils packages (spec-modelled)

These packages are referenced by main.go but their sources are not at hand;
the following definitions are modelled from the specification. -/

/-- Modelled from the spec: wftime.Interval, an inclusive-begin,
exclusive-end pair of instants.  Instants and durations are integers in
nanoseconds, matching Go time.Duration arithmetic. -/
structure Interval where
  Begin : Int
  End : Int
deriving DecidableEq, Repr

/-- Modelled from the spec: wftime.AggregationInterval (section 4.5): with
t = now - grace and n = floor(t / period), the interval is
[n * period, (n + 1) * period). -/
def AggregationInterval (now period grace : Int) : Interval :=
  let n := (now - grace).fdiv period
  ⟨n * period, (n + 1) * period⟩

/-- Modelled from the spec: task.Batch, one element of an aggregate task's
batch list (section 3). -/
structure Batch where
  ID : Str
  Time : Int
deriving DecidableEq, Repr

/-- Modelled from the spec: task.IntakeBatch, the intake task payload
(sections 3 and 6). -/
structure IntakeBatch where
  AggregationID : Str
  BatchID : Str
  Date : Int
deriving DecidableEq, Repr

/-- Modelled from the spec: task.Aggregation, the aggregate task payload
(sections 3 and 6). -/
structure Aggregation where
  AggregationID : Str
  AggregationStart : Int
  AggregationEnd : Int
  Batches : List Batch
deriving DecidableEq, Repr

/-- Modelled from the spec: the rendering of an instant inside a marker key
(section 3: RFC 3339 UTC).  The model renders the instant by its decimal
value, an injective stand-in for the RFC 3339 string. -/
def fmtTs (t : Int) : Str := (toString t).toList

/-- Modelled from the spec: task.IntakeBatch.Marker, the intake task marker
key intake-aggregationID-batchID (section 3). -/
def IntakeBatch.Marker (t : IntakeBatch) : Str :=
  "intake-".toList ++ t.AggregationID ++ '-' :: t.BatchID

/-- Modelled from the spec: task.Aggregation.Marker, the aggregate task
marker key aggregate-aggregationID-start-end (section 3). -/
def Aggregation.Marker (t : Aggregation) : Str :=
  "aggregate-".toList ++ t.AggregationID ++ '-' :: fmtTs t.AggregationStart
    ++ '-' :: fmtTs t.AggregationEnd

/-- Modelled from the spec: utils.Index (section 4.4: the first data share
processor writes validity_0, the second validity_1). -/
def utilsIndex (b : Bool) : Nat := if b then 0 else 1

/-- The validity role string validity_N built by scheduleTasks from
utilsIndex. -/
def validityTagOf (first : Bool) : Str :=
  "validity_".toList ++ (toString (utilsIndex first)).toList

/-- The role string used for intake batches. -/
def tagBatch : Str := "batch".toList

/-! ### Scheduler (workflow-manager/main.go) -/

/-- Translated from enqueueIntakeTasks: the intake task built for a ready
batch. -/
def mkIntakeTask (b : BatchPath) : IntakeBatch :=
  ⟨b.AggregationID, b.ID, b.Time⟩

/-- Translated from enqueueIntakeTasks: walk the ready batches in order; a
batch whose marker is among the observed markers is skipped (counted), any
other batch has its intake task enqueued.  Returns the skipped count and
the enqueued tasks in submission order. -/
def enqueueIntakeTasks (readyBatches : List BatchPath) (taskMarkers : List Str) :
    Nat × List IntakeBatch :=
  readyBatches.foldl
    (fun acc batch =>
      let intakeTask := mkIntakeTask batch
      if intakeTask.Marker ∈ taskMarkers then (acc.1 + 1, acc.2)
      else (acc.1, acc.2 ++ [intakeTask]))
    (0, [])

/-- Translated from the completion callback passed by enqueueIntakeTasks to
Enqueue: on a publish error the callback only logs and returns; on a nil
error it writes the task's marker.  The result is the marker the callback
writes, if any. -/
def intakeTaskCallback (t : IntakeBatch) (publishErr : Option Unit) : Option Str :=
  match publishErr with
  | some _ => none
  | none => some t.Marker

/-- Translated from the completion callback passed by enqueueAggregationTask
to Enqueue: on a publish error the callback only logs and returns; on a nil
error it writes the aggregation task's marker. -/
def aggregationTaskCallback (t : Aggregation) (publishErr : Option Unit) : Option Str :=
  match publishErr with
  | some _ => none
  | none => some t.Marker

/-- Translated from the loop of enqueueAggregationTask: builds the task's
batch list in ready-batch order, failing (none) on the first batch whose
aggregation ID differs from the argument. -/
def buildBatches (aggregationID : Str) : List BatchPath → Option (List Batch)
  | [] => some []
  | bp :: rest =>
    let entry : Batch := ⟨bp.ID, bp.Time⟩
    if aggregationID ≠ bp.AggregationID then none
    else (buildBatches aggregationID rest).map (fun l => entry :: l)

/-- Translated from enqueueAggregationTask: the aggregation task assembled
from the window and the batch list. -/
def mkAggregationTask (aggregationID : Str) (w : Interval) (batches : List Batch) :
    Aggregation :=
  ⟨aggregationID, w.Begin, w.End, batches⟩

/-- Translated from enqueueAggregationTask: an empty ready list returns
success with nothing enqueued; a batch with a foreign aggregation ID is an
error (none); a task whose marker is among the observed markers is skipped;
otherwise the task is enqueued.  The result some (some t) means t was
enqueued, some none means success without enqueue, none means error. -/
def enqueueAggregationTask (aggregationID : Str) (readyBatches : List BatchPath)
    (aggregationWindow : Interval) (taskMarkers : List Str) :
    Option (Option Aggregation) :=
  if readyBatches.length = 0 then some none
  else
    match buildBatches aggregationID readyBatches with
    | none => none
    | some batches =>
      let aggregationTask := mkAggregationTask aggregationID aggregationWindow batches
      if aggregationTask.Marker ∈ taskMarkers then some none
      else some (some aggregationTask)

/-- Translated from scheduleTasks: the set of own-validation batch IDs,
modelled as the list of keys inserted into Go's map[string]bool. -/
def ownValidationsSetOf (ownValidationBatches : List BatchPath) : List Str :=
  ownValidationBatches.foldl (fun s b => s ++ [b.ID]) []

/-- Translated from scheduleTasks: the batches to aggregate are the peer
validation batches, in their list order, whose ID is in the own-validation
set. -/
def aggregationBatchesOf (own peer : List BatchPath) : List BatchPath :=
  let ownSet := ownValidationsSetOf own
  peer.foldl (fun acc p => if p.ID ∈ ownSet then acc ++ [p] else acc) []

/-- Inputs of one scheduleTasks run.  Buckets are modelled as functions from
the listing interval to the returned object keys; the clock is the constant
instant the injected Clock returns. -/
structure ScheduleConfig where
  aggregationID : Str
  isFirst : Bool
  clock : Int
  maxAge : Int
  aggregationPeriod : Int
  gracePeriod : Int
  intakeFiles : Interval → List Str
  intakeMarkers : Interval → List Str
  ownValidationFiles : Interval → List Str
  peerValidationFiles : Interval → List Str
  aggMarkers : List Str

/-- Observables of one scheduleTasks run. -/
structure RunResult where
  intakeInterval : Interval
  aggInterval : Interval
  intakeBatches : List BatchPath
  intakesSkipped : Nat
  enqueuedIntakeTasks : List IntakeBatch
  aggResult : Option Aggregation
deriving DecidableEq, Repr

/-- One day in nanoseconds: the 24 * time.Hour added to now for the intake
interval's end. -/
def hours24 : Int := 24 * 3600 * 1000000000

/-- Translated from scheduleTasks: build the intake interval from the clock,
assemble and enqueue intake batches, then build the aggregation interval,
assemble own and peer validations, intersect them and run
enqueueAggregationTask.  Any error (none) aborts the run. -/
def scheduleTasksModel (cfg : ScheduleConfig) : Option RunResult :=
  let intakeInterval : Interval := ⟨cfg.clock - cfg.maxAge, cfg.clock + hours24⟩
  match ReadyBatches (cfg.intakeFiles intakeInterval) tagBatch with
  | none => none
  | some intakeBatches =>
    let intakeTaskMarkersSet := cfg.intakeMarkers intakeInterval
    let r := enqueueIntakeTasks intakeBatches intakeTaskMarkersSet
    let aggInterval := AggregationInterval cfg.clock cfg.aggregationPeriod cfg.gracePeriod
    match ReadyBatches (cfg.ownValidationFiles aggInterval) (validityTagOf cfg.isFirst) with
    | none => none
    | some ownValidationBatches =>
      match ReadyBatches (cfg.peerValidationFiles aggInterval) (validityTagOf (!cfg.isFirst)) with
      | none => none
      | some peerValidationBatches =>
        let aggregationBatches := aggregationBatchesOf ownValidationBatches peerValidationBatches
        match enqueueAggregationTask cfg.aggregationID aggregationBatches aggInterval cfg.aggMarkers with
        | none => none
        | some aggResult =>
          some ⟨intakeInterval, aggInterval, intakeBatches, r.1, r.2, aggResult⟩

/-- The markers written by the intake callbacks of a run, given the publish
outcome of each enqueued task. -/
def runIntakeMarkersWritten (res : RunResult) (errOf : IntakeBatch → Option Unit) :
    List Str :=
  res.enqueuedIntakeTasks.filterMap (fun t => intakeTaskCallback t (errOf t))

/-- The markers written by the aggregation callback of a run, given the
publish outcome of the aggregate task. -/
def runAggMarkersWritten (res : RunResult) (errOf : Aggregation → Option Unit) :
    List Str :=
  match res.aggResult with
  | none => []
  | some t => (aggregationTaskCallback t (errOf t)).toList

/-- The markers written by the callback of one enqueueAggregationTask call,
given its result and the publish outcome. -/
def aggCallMarkersWritten (result : Option (Option Aggregation))
    (errOf : Aggregation → Option Unit) : List Str :=
  match result with
  | some (some t) => (aggregationTaskCallback t (errOf t)).toList
  | _ => []

/-! ### Auxiliary definitions used by the statements below -/

/-- A batch path with its three presence bits cleared, as batchpath.New
returns it. -/
def clearFlags (b : BatchPath) : BatchPath :=
  { b with metadata := false, avro := false, sig := false }

/-- Some listed object name accounts for the presence bit of kind suf on the
batch grouped under base name k. -/
def flagWitness (files : List Str) (tag k suf : Str) : Prop :=
  ∃ f ∈ files, basenameOf f tag = k ∧ suf <:+ f

/-- Invariant of one entry of the grouping map of ReadyBatches: the key
parses back to the entry's batch with cleared presence bits, and every set
presence bit is accounted for by a processed object name. -/
def entryInv (files : List Str) (tag : Str) (e : Str × BatchPath) : Prop :=
  New e.1 = some (clearFlags e.2) ∧
  (e.2.metadata = true → flagWitness files tag e.1 (dotTag tag)) ∧
  (e.2.avro = true → flagWitness files tag e.1 (avroTag tag)) ∧
  (e.2.sig = true → flagWitness files tag e.1 (sigTag tag))

/-- Bytewise lexicographic string order, as Go compares strings. -/
def strLeB : Str → Str → Bool
  | [], _ => true
  | _ :: _, [] => false
  | a :: as, b :: bs => if a < b then true else if b < a then false else strLeB as bs

/-- The adjacent-pair order claimed by the specification for BatchLists:
ascending by time, ties broken by batch ID string order. -/
def pairLeTimeID (x y : BatchPath) : Bool :=
  (x.Time < y.Time) || (x.Time == y.Time && strLeB x.ID y.ID)

/-- Whether a batch list is sorted ascending by (time, batch ID). -/
def sortedByTimeIDB : List BatchPath → Bool
  | [] => true
  | [_] => true
  | x :: y :: rest => pairLeTimeID x y && sortedByTimeIDB (y :: rest)

/-! ### Concrete instances used by witnesses and counterexamples -/

/-- A complete batch triple plus one key whose date has only four
components. -/
def filesC3 : List Str :=
  ["kittens-seen/2020/10/31/20/29/u1.batch".toList,
   "kittens-seen/2020/10/31/20/29/u1.batch.avro".toList,
   "kittens-seen/2020/10/31/20/29/u1.batch.sig".toList,
   "kittens-seen/2020/10/31/20/bad.batch".toList]

/-- A complete batch triple plus one key with a non-numeric date
component. -/
def filesC3w : List Str :=
  ["dogs-seen/2020/11/02/08/15/u7.batch".toList,
   "dogs-seen/2020/11/xx/08/15/u8.batch".toList]

/-- Two complete batch triples at the same minute, batch b listed before
batch a. -/
def filesC4 : List Str :=
  ["agg/2020/10/31/20/29/b.batch".toList,
   "agg/2020/10/31/20/29/b.batch.avro".toList,
   "agg/2020/10/31/20/29/b.batch.sig".toList,
   "agg/2020/10/31/20/29/a.batch".toList,
   "agg/2020/10/31/20/29/a.batch.avro".toList,
   "agg/2020/10/31/20/29/a.batch.sig".toList]

/-- The batch with ID b of filesC4, fully present. -/
def bpB : BatchPath :=
  { AggregationID := "agg".toList
    dateComponents := ["2020".toList, "10".toList, "31".toList, "20".toList, "29".toList]
    ID := "b".toList
    Time := goDate 2020 10 31 20 29
    metadata := true, avro := true, sig := true }

/-- The batch with ID a of filesC4, fully present. -/
def bpA : BatchPath := { bpB with ID := "a".toList }

/-- Three keys that together set all three presence bits of one batch even
though the plain header key agg/2020/10/31/20/29/u.batch is absent: the
first key ends in .batch but its base name strips down through
.batch.avro. -/
def filesC5 : List Str :=
  ["agg/2020/10/31/20/29/u.batch.avro.batch".toList,
   "agg/2020/10/31/20/29/u.batch.avro".toList,
   "agg/2020/10/31/20/29/u.batch.sig".toList]

/-- The batch assembled from filesC5, fully present. -/
def bpC5 : BatchPath := { bpB with ID := "u".toList }

/-- An ordinary complete batch triple. -/
def filesC5w : List Str :=
  ["cats-seen/2021/01/05/07/03/w1.batch".toList,
   "cats-seen/2021/01/05/07/03/w1.batch.avro".toList,
   "cats-seen/2021/01/05/07/03/w1.batch.sig".toList]

/-- The batch assembled from filesC5w. -/
def bpC5w : BatchPath :=
  { AggregationID := "cats-seen".toList
    dateComponents := ["2021".toList, "01".toList, "05".toList, "07".toList, "03".toList]
    ID := "w1".toList
    Time := goDate 2021 1 5 7 3
    metadata := true, avro := true, sig := true }

/-- The list assembled by ReadyBatches from filesC4: both batches share a
minute, and the batch with the larger ID keeps its first-listed place. -/
def outC4 : List BatchPath := [bpB, bpA]

/-- A well-formed batch name. -/
def sC8 : Str := "kittens-seen/2020/10/31/20/29/b8a5579a-f984".toList

/-- The batch path parsed from sC8. -/
def bpC8 : BatchPath :=
  { AggregationID := "kittens-seen".toList
    dateComponents := ["2020".toList, "10".toList, "31".toList, "20".toList, "29".toList]
    ID := "b8a5579a-f984".toList
    Time := goDate 2020 10 31 20 29 }

/-- Aggregation ID for the intersection scenario: own validations for A, B,
C, peer validations for B, C, D. -/
def aidC1 : Str := "kittens-seen".toList

/-- An own- or peer-validation batch with the given ID under aidC1. -/
def valBatch (id : Str) : BatchPath :=
  { AggregationID := aidC1, dateComponents := [], ID := id, Time := 7 }

/-- Own validations: IDs A, B, C. -/
def ownC1 : List BatchPath := [valBatch "A".toList, valBatch "B".toList, valBatch "C".toList]

/-- Peer validations: IDs B, C, D. -/
def peerC1 : List BatchPath := [valBatch "B".toList, valBatch "C".toList, valBatch "D".toList]

/-- A scheduler run configuration with empty buckets. -/
def cfgC9 : ScheduleConfig :=
  { aggregationID := []
    isFirst := true
    clock := 0
    maxAge := 0
    aggregationPeriod := 1
    gracePeriod := 0
    intakeFiles := fun _ => []
    intakeMarkers := fun _ => []
    ownValidationFiles := fun _ => []
    peerValidationFiles := fun _ => []
    aggMarkers := [] }

/-- The result of the empty run cfgC9. -/
def resC9 : RunResult := ⟨⟨0, 86400000000000⟩, ⟨0, 1⟩, [], 0, [], none⟩

/-- A run configuration whose intake bucket holds one complete batch. -/
def cfgC2 : ScheduleConfig :=
  { cfgC9 with
    aggregationID := "agg".toList
    intakeFiles := fun _ =>
      ["agg/2020/10/31/20/29/u1.batch".toList,
       "agg/2020/10/31/20/29/u1.batch.avro".toList,
       "agg/2020/10/31/20/29/u1.batch.sig".toList] }

/-- The intake batch assembled by the run cfgC2. -/
def bpC2 : BatchPath :=
  { AggregationID := "agg".toList
    dateComponents := ["2020".toList, "10".toList, "31".toList, "20".toList, "29".toList]
    ID := "u1".toList
    Time := goDate 2020 10 31 20 29
    metadata := true, avro := true, sig := true }

/-- The result of the run cfgC2: one intake task enqueued. -/
def resC2 : RunResult :=
  ⟨⟨0, 86400000000000⟩, ⟨0, 1⟩, [bpC2], 0, [mkIntakeTask bpC2], none⟩

/-- A run configuration like cfgC2 whose intake marker for the one batch is
already present. -/
def cfgC6 : ScheduleConfig :=
  { cfgC2 with intakeMarkers := fun _ => [(mkIntakeTask bpC2).Marker] }

/-- The result of the run cfgC6: the one batch is skipped. -/
def resC6 : RunResult :=
  ⟨⟨0, 86400000000000⟩, ⟨0, 1⟩, [bpC2], 1, [], none⟩

/-- Aggregation ID of the marker-present aggregation scenario. -/
def aidC7 : Str := "kittens-seen".toList

/-- The one ready batch of the marker-present aggregation scenario. -/
def bpC7 : BatchPath :=
  { AggregationID := aidC7, dateComponents := [], ID := "q1".toList, Time := 3 }

/-- The batch list the aggregation task would carry. -/
def bsC7 : List Batch := [⟨"q1".toList, 3⟩]

/-- The aggregation window of the marker-present scenario. -/
def wC7 : Interval := ⟨0, 1⟩

/-- A batch whose aggregation ID differs from aidC7. -/
def bpC10 : BatchPath :=
  { AggregationID := "other-metric".toList, dateComponents := [], ID := "z9".toList, Time := 5 }

/-! ### Lemmas on the string primitives -/

theorem joinSlash_cons_cons (a b : Str) (l : List Str) :
    joinSlash (a :: b :: l) = a ++ '/' :: joinSlash (b :: l) := rfl

/-- Splitting on "/" and joining on "/" are inverse. -/
theorem joinSlash_splitSlash (s : Str) : joinSlash (splitSlash s) = s := by
  induction s with
  | nil => rfl
  | cons c rest ih =>
    have ihx : joinSlash ((splitSlashAux rest).1 :: (splitSlashAux rest).2) = rest := ih
    by_cases hc : c = '/'
    · subst hc
      have h1 : splitSlash ('/' :: rest) = [] :: splitSlash rest := by
        simp [splitSlash, splitSlashAux]
      rw [h1, show splitSlash rest = (splitSlashAux rest).1 :: (splitSlashAux rest).2 from rfl,
        joinSlash_cons_cons]
      rw [ihx]
      rfl
    · have h1 : splitSlash (c :: rest) =
          (c :: (splitSlashAux rest).1) :: (splitSlashAux rest).2 := by
        simp [splitSlash, splitSlashAux, hc]
      rw [h1]
      rcases h2 : (splitSlashAux rest).2 with _ | ⟨w, ws⟩
      · rw [h2] at ihx
        exact congrArg (List.cons c) ihx
      · rw [h2] at ihx
        rw [joinSlash_cons_cons] at ihx
        rw [joinSlash_cons_cons]
        exact congrArg (List.cons c) ihx

/-- A successfully parsed batch name is reproduced by BatchPath.path: the
component split of the name is put back together by the formatter. -/
theorem path_of_New {s : Str} {b : BatchPath} (h : New s = some b) :
    BatchPath.path b = s := by
  have hjs := joinSlash_splitSlash s
  simp only [New] at h
  split at h
  next c1 c2 c3 c4 c5 heq =>
    split at h
    next y mo d hh mi h1 h2 h3 h4 h5 =>
      obtain rfl := (Option.some.inj h).symm
      rcases hsp : splitSlash s with _ | ⟨p1, ptail⟩
      · exact absurd hsp (by simp [splitSlash])
      · rw [hsp] at heq hjs
        simp only [List.drop_succ_cons, List.drop_zero] at heq
        rcases ptail with _ | ⟨q, qtail⟩
        · simp at heq
        · have hne : (q :: qtail) ≠ [] := by simp
          have hconcat := List.dropLast_append_getLast hne
          rw [heq] at hconcat
          obtain ⟨x, hx⟩ : ∃ x, q :: qtail = [c1, c2, c3, c4, c5] ++ [x] :=
            ⟨_, hconcat.symm⟩
          rw [hx] at hjs
          rw [hx]
          show joinSlash [p1, joinSlash [c1, c2, c3, c4, c5], x] = s
          rw [← hjs]
          show p1 ++ '/' :: ((c1 ++ '/' :: (c2 ++ '/' :: (c3 ++ '/' :: (c4 ++ '/' :: c5)))) ++ '/' :: x)
            = p1 ++ '/' :: (c1 ++ '/' :: (c2 ++ '/' :: (c3 ++ '/' :: (c4 ++ '/' :: (c5 ++ '/' :: x)))))
          simp [List.append_assoc]
    next => exact Option.noConfusion h
  next => exact Option.noConfusion h

/-! ### Lemmas on the grouping loop of ReadyBatches -/

theorem lookup_mem {l : List (Str × BatchPath)} {k : Str} {b : BatchPath}
    (h : List.lookup k l = some b) : (k, b) ∈ l := by
  induction l with
  | nil => simp [List.lookup] at h
  | cons p t ih =>
    obtain ⟨k1, v1⟩ := p
    by_cases hk : k = k1
    · subst hk
      simp [List.lookup] at h
      subst h
      exact List.mem_cons_self _ _
    · have hbeq : (k == k1) = false := beq_false_of_ne hk
      simp [List.lookup, hbeq] at h
      exact List.mem_cons_of_mem _ (ih h)

theorem clearFlags_updateFlags (name tag : Str) (b : BatchPath) :
    clearFlags (updateFlags name tag b) = clearFlags b := by
  unfold updateFlags clearFlags
  split_ifs <;> rfl

theorem path_clearFlags (b : BatchPath) : (clearFlags b).path = b.path := rfl

theorem metadata_updateFlags {name tag : Str} {b : BatchPath}
    (h : (updateFlags name tag b).metadata = true) :
    (dotTag tag <:+ name) ∨ b.metadata = true := by
  unfold updateFlags at h
  split_ifs at h <;> simp_all

theorem avro_updateFlags {name tag : Str} {b : BatchPath}
    (h : (updateFlags name tag b).avro = true) :
    (avroTag tag <:+ name) ∨ b.avro = true := by
  unfold updateFlags at h
  split_ifs at h <;> simp_all

theorem sig_updateFlags {name tag : Str} {b : BatchPath}
    (h : (updateFlags name tag b).sig = true) :
    (sigTag tag <:+ name) ∨ b.sig = true := by
  unfold updateFlags at h
  split_ifs at h <;> simp_all

theorem flagWitness_mono {files : List Str} {more tag k suf : Str}
    (h : flagWitness files tag k suf) : flagWitness (files ++ [more]) tag k suf := by
  obtain ⟨f, hf, h1, h2⟩ := h
  exact ⟨f, List.mem_append_left _ hf, h1, h2⟩

theorem entryInv_mono {files : List Str} {more tag : Str} {e : Str × BatchPath}
    (h : entryInv files tag e) : entryInv (files ++ [more]) tag e := by
  obtain ⟨h0, h1, h2, h3⟩ := h
  exact ⟨h0, fun hm => flagWitness_mono (h1 hm), fun hm => flagWitness_mono (h2 hm),
    fun hm => flagWitness_mono (h3 hm)⟩

/-- The updated entry of the grouping map keeps the invariant: each newly set
presence bit is witnessed by the object name just processed. -/
theorem entryInv_update {files : List Str} {tag name : Str} {b : BatchPath}
    (h : entryInv files tag (basenameOf name tag, b)) :
    entryInv (files ++ [name]) tag (basenameOf name tag, updateFlags name tag b) := by
  obtain ⟨h0, h1, h2, h3⟩ := h
  have hmem : name ∈ files ++ [name] := List.mem_append_right _ (List.mem_singleton.mpr rfl)
  refine ⟨?_, ?_, ?_, ?_⟩
  · show New (basenameOf name tag) = some (clearFlags (updateFlags name tag b))
    rw [clearFlags_updateFlags]
    exact h0
  · intro hm
    rcases metadata_updateFlags hm with hs | hold
    · exact ⟨name, hmem, rfl, hs⟩
    · exact flagWitness_mono (h1 hold)
  · intro hm
    rcases avro_updateFlags hm with hs | hold
    · exact ⟨name, hmem, rfl, hs⟩
    · exact flagWitness_mono (h2 hold)
  · intro hm
    rcases sig_updateFlags hm with hs | hold
    · exact ⟨name, hmem, rfl, hs⟩
    · exact flagWitness_mono (h3 hold)

/-- Fresh batches carry no presence bits, so a freshly inserted entry keeps
the invariant. -/
theorem entryInv_new {files : List Str} {tag name : Str} {b : BatchPath}
    (h : New (basenameOf name tag) = some b) :
    entryInv (files ++ [name]) tag (basenameOf name tag, updateFlags name tag b) := by
  have hflags : clearFlags b = b := by
    simp only [New] at h
    split at h
    · split at h
      · obtain rfl := (Option.some.inj h).symm
        rfl
      · exact Option.noConfusion h
    · exact Option.noConfusion h
  have hmem : name ∈ files ++ [name] := List.mem_append_right _ (List.mem_singleton.mpr rfl)
  refine ⟨?_, ?_, ?_, ?_⟩
  · show New (basenameOf name tag) = some (clearFlags (updateFlags name tag b))
    rw [clearFlags_updateFlags, hflags]
    exact h
  · intro hm
    rcases metadata_updateFlags hm with hs | hold
    · exact ⟨name, hmem, rfl, hs⟩
    · rw [show b.metadata = (clearFlags b).metadata from by rw [hflags]] at hold
      simp [clearFlags] at hold
  · intro hm
    rcases avro_updateFlags hm with hs | hold
    · exact ⟨name, hmem, rfl, hs⟩
    · rw [show b.avro = (clearFlags b).avro from by rw [hflags]] at hold
      simp [clearFlags] at hold
  · intro hm
    rcases sig_updateFlags hm with hs | hold
    · exact ⟨name, hmem, rfl, hs⟩
    · rw [show b.sig = (clearFlags b).sig from by rw [hflags]] at hold
      simp [clearFlags] at hold

/-- Main invariant of the grouping loop: every entry of the resulting map
parses back from its key and has each presence bit witnessed by one of the
processed object names. -/
theorem readyLoop_inv (tag : Str) : ∀ (files processed : List Str)
    (acc out : List (Str × BatchPath)),
    (∀ e ∈ acc, entryInv processed tag e) →
    readyLoop tag files acc = some out →
    ∀ e ∈ out, entryInv (processed ++ files) tag e := by
  intro files
  induction files with
  | nil =>
    intro processed acc out hinv h e he
    simp only [readyLoop] at h
    obtain rfl := Option.some.inj h
    simpa using hinv e he
  | cons name rest ih =>
    intro processed acc out hinv h
    simp only [readyLoop] at h
    split at h
    next b hlk =>
      have hstep : ∀ e ∈ updateBase acc (basenameOf name tag) (updateFlags name tag b),
          entryInv (processed ++ [name]) tag e := by
        intro e he
        obtain ⟨p, hp, hpe⟩ := List.mem_map.mp he
        by_cases hpb : p.1 = basenameOf name tag
        · rw [if_pos hpb] at hpe
          subst hpe
          have hmem : (basenameOf name tag, b) ∈ acc := by
            rw [← hpb]
            rw [← hpb] at hlk
            exact lookup_mem hlk
          exact entryInv_update (hinv _ hmem)
        · rw [if_neg hpb] at hpe
          subst hpe
          exact entryInv_mono (hinv _ hp)
      have := ih (processed ++ [name]) _ out hstep h
      intro e he
      have hx := this e he
      rwa [List.append_assoc, List.singleton_append] at hx
    next hlk =>
      split at h
      next hnew => exact Option.noConfusion h
      next b hnew =>
        have hstep : ∀ e ∈ acc ++ [(basenameOf name tag, updateFlags name tag b)],
            entryInv (processed ++ [name]) tag e := by
          intro e he
          rcases List.mem_append.mp he with hl | hr
          · exact entryInv_mono (hinv _ hl)
          · obtain rfl := List.mem_singleton.mp hr
            exact entryInv_new hnew
        have := ih (processed ++ [name]) _ out hstep h
        intro e he
        have hx := this e he
        rwa [List.append_assoc, List.singleton_append] at hx

/-- Inversion of ReadyBatches on success. -/
theorem ReadyBatches_some {files : List Str} {tag : Str} {out : List BatchPath}
    (h : ReadyBatches files tag = some out) :
    ∃ acc, readyLoop tag files [] = some acc ∧
      out = List.insertionSort timeLe ((acc.map Prod.snd).filter (fun b => b.isComplete)) := by
  unfold ReadyBatches at h
  split at h
  next => exact Option.noConfusion h
  next acc hacc => exact ⟨acc, hacc, (Option.some.inj h).symm⟩

/-- A file whose stripped base name does not parse makes the grouping loop
fail, provided every key already in the map parses (as the loop maintains). -/
theorem readyLoop_err (tag : Str) : ∀ (files : List Str) (acc : List (Str × BatchPath)),
    (∀ e ∈ acc, ∃ b, New e.1 = some b) →
    (∃ f ∈ files, New (basenameOf f tag) = none) →
    readyLoop tag files acc = none := by
  intro files
  induction files with
  | nil =>
    intro acc _ hbad
    simp at hbad
  | cons name rest ih =>
    intro acc hkeys hbad
    simp only [readyLoop]
    by_cases hname : New (basenameOf name tag) = none
    · have hlk : List.lookup (basenameOf name tag) acc = none := by
        cases hl : List.lookup (basenameOf name tag) acc with
        | none => rfl
        | some b =>
          obtain ⟨b', hb'⟩ := hkeys _ (lookup_mem hl)
          rw [hname] at hb'
          exact Option.noConfusion hb'
      rw [hlk, hname]
    · have hbad' : ∃ f ∈ rest, New (basenameOf f tag) = none := by
        rcases hbad with ⟨f, hf, hfn⟩
        rcases List.mem_cons.mp hf with rfl | hf'
        · exact absurd hfn hname
        · exact ⟨f, hf', hfn⟩
      obtain ⟨b0, hb0⟩ : ∃ b0, New (basenameOf name tag) = some b0 := by
        cases hx : New (basenameOf name tag) with
        | none => exact absurd hx hname
        | some b0 => exact ⟨b0, rfl⟩
      cases hl : List.lookup (basenameOf name tag) acc with
      | some b =>
        apply ih _ ?_ hbad'
        intro e he
        obtain ⟨p, hp, hpe⟩ := List.mem_map.mp he
        by_cases hpb : p.1 = basenameOf name tag
        · rw [if_pos hpb] at hpe
          subst hpe
          exact ⟨b0, hb0⟩
        · rw [if_neg hpb] at hpe
          subst hpe
          exact hkeys _ hp
      | none =>
        rw [hb0]
        apply ih _ ?_ hbad'
        intro e he
        rcases List.mem_append.mp he with hl' | hr
        · exact hkeys _ hl'
        · obtain rfl := List.mem_singleton.mp hr
          exact ⟨b0, hb0⟩

/-! ### Claims C8, C3, C4, C5 -/

/-- Claim C8: parsing the formatted key prefix of a well-formed batch path b
(one obtained by parsing some batch name) yields a BatchPath equal to b:
same aggregation ID, date components, batch ID, time and presence bits. -/
theorem claim_C8_parse_format_roundtrip (s : Str) (b : BatchPath)
    (h : New s = some b) : New (BatchPath.path b) = some b := by
  rw [path_of_New h]
  exact h

/-- Witness for claim C8 at a concrete well-formed batch name. -/
theorem claim_C8_witness : New (BatchPath.path bpC8) = some bpC8 :=
  claim_C8_parse_format_roundtrip sC8 bpC8 (by decide)

/-- Claim C3 counterexample: a list holding one complete batch triple plus
one key with a four-component date.  The claim says the malformed key is
skipped and the remaining batches are still returned; the code instead
fails the whole assembly with an error. -/
theorem claim_C3_counterexample : ReadyBatches filesC3 tagBatch = none := by decide

/-- Claim C3 as amended: a key whose stripped base name cannot be parsed as
a batch path makes ReadyBatches fail with an error; the batches from the
remaining keys are not returned. -/
theorem claim_C3_malformed_key_fails (files : List Str) (tag : Str)
    (h : ∃ f ∈ files, New (basenameOf f tag) = none) :
    ReadyBatches files tag = none := by
  unfold ReadyBatches
  rw [readyLoop_err tag files [] (by simp) h]

/-- Witness for the amended claim C3 at a concrete key list. -/
theorem claim_C3_witness : ReadyBatches filesC3w tagBatch = none :=
  claim_C3_malformed_key_fails filesC3w tagBatch (by decide)

/-- Claim C4 counterexample: two complete batches share a minute and the one
with the larger batch ID is listed first; the assembled list is not sorted
by (time, batch ID), because the comparator looks at the time only. -/
theorem claim_C4_counterexample :
    ReadyBatches filesC4 tagBatch = some outC4 ∧ sortedByTimeIDB outC4 = false := by
  decide

/-- Claim C4 as amended: the batch list returned by ReadyBatches is sorted
ascending by time (non-strictly); the relative order of batches with equal
times is left unspecified by the comparator. -/
theorem claim_C4_sorted_by_time (files : List Str) (tag : Str) (out : List BatchPath)
    (h : ReadyBatches files tag = some out) : List.Sorted timeLe out := by
  obtain ⟨acc, hacc, rfl⟩ := ReadyBatches_some h
  exact List.sorted_insertionSort timeLe _

/-- Witness for the amended claim C4 at a concrete key list. -/
theorem claim_C4_witness : List.Sorted timeLe outC4 :=
  claim_C4_sorted_by_time filesC4 tagBatch outC4 (by decide)

/-- Claim C5 counterexample: the three keys of filesC5 assemble one complete
batch even though the batch's header key (path plus ".batch") is not among
them: the first key ends in ".batch" but strips down through
".batch.avro", so it sets the header presence bit of a different base. -/
theorem claim_C5_counterexample :
    ReadyBatches filesC5 tagBatch = some [bpC5] ∧
    (BatchPath.path bpC5 ++ dotTag tagBatch) ∉ filesC5 := by
  decide

/-- Claim C5 as amended: every batch returned by ReadyBatches is complete
(all three presence bits set), and for each of the three suffix roles there
is a listed key carrying that suffix whose stripped base name equals the
batch's path; the three exact keys path.role, path.role.avro,
path.role.sig need not themselves all be present. -/
theorem claim_C5_complete_batches (files : List Str) (tag : Str) (out : List BatchPath)
    (h : ReadyBatches files tag = some out) : ∀ b ∈ out,
    b.isComplete = true ∧
    flagWitness files tag b.path (dotTag tag) ∧
    flagWitness files tag b.path (avroTag tag) ∧
    flagWitness files tag b.path (sigTag tag) := by
  intro b hb
  obtain ⟨acc, hacc, rfl⟩ := ReadyBatches_some h
  have hb' := (List.mem_insertionSort timeLe).mp hb
  obtain ⟨hmem, hcomp⟩ := List.mem_filter.mp hb'
  obtain ⟨e, he, hesnd⟩ := List.mem_map.mp hmem
  have hinv := readyLoop_inv tag files [] [] acc (by simp) hacc e he
  rw [List.nil_append] at hinv
  obtain ⟨h0, h1, h2, h3⟩ := hinv
  subst hesnd
  have hpath : e.2.path = e.1 := by
    have hp := path_of_New h0
    rw [path_clearFlags] at hp
    exact hp
  have hflags : e.2.metadata = true ∧ e.2.avro = true ∧ e.2.sig = true := by
    have hc := hcomp
    simp only [BatchPath.isComplete, Bool.and_eq_true] at hc
    exact ⟨hc.1.1, hc.1.2, hc.2⟩
  refine ⟨hcomp, ?_, ?_, ?_⟩
  · rw [hpath]
    exact h1 hflags.1
  · rw [hpath]
    exact h2 hflags.2.1
  · rw [hpath]
    exact h3 hflags.2.2

/-- Witness for the amended claim C5 at a concrete complete triple. -/
theorem claim_C5_witness :
    bpC5w.isComplete = true ∧
    flagWitness filesC5w tagBatch bpC5w.path (dotTag tagBatch) ∧
    flagWitness filesC5w tagBatch bpC5w.path (avroTag tagBatch) ∧
    flagWitness filesC5w tagBatch bpC5w.path (sigTag tagBatch) :=
  claim_C5_complete_batches filesC5w tagBatch [bpC5w] (by decide) bpC5w (by decide)

/-! ### Lemmas on the scheduler -/

theorem ownValidationsSetOf_eq (own : List BatchPath) :
    ownValidationsSetOf own = own.map BatchPath.ID := by
  unfold ownValidationsSetOf
  suffices h : ∀ s : List Str, own.foldl (fun s b => s ++ [b.ID]) s
      = s ++ own.map BatchPath.ID by
    simpa using h []
  induction own with
  | nil => intro s; simp
  | cons b t ih =>
    intro s
    rw [List.foldl_cons, ih, List.map_cons]
    simp

theorem aggregationBatchesOf_eq_filter (own peer : List BatchPath) :
    aggregationBatchesOf own peer =
      peer.filter (fun p => decide (p.ID ∈ own.map BatchPath.ID)) := by
  simp only [aggregationBatchesOf]
  rw [ownValidationsSetOf_eq]
  suffices h : ∀ acc : List BatchPath,
      peer.foldl (fun acc p => if p.ID ∈ own.map BatchPath.ID then acc ++ [p] else acc) acc
        = acc ++ peer.filter (fun p => decide (p.ID ∈ own.map BatchPath.ID)) by
    simpa using h []
  induction peer with
  | nil => intro acc; simp
  | cons p t ih =>
    intro acc
    rw [List.foldl_cons]
    by_cases hp : p.ID ∈ own.map BatchPath.ID
    · rw [if_pos hp, ih, List.filter_cons]
      simp [hp]
    · rw [if_neg hp, ih, List.filter_cons]
      simp [hp]

theorem enqueueIntakeTasks_go (markers : List Str) : ∀ (ready : List BatchPath)
    (n : Nat) (l : List IntakeBatch),
    List.foldl
      (fun acc batch =>
        let intakeTask := mkIntakeTask batch
        if intakeTask.Marker ∈ markers then (acc.1 + 1, acc.2)
        else (acc.1, acc.2 ++ [intakeTask]))
      (n, l) ready
    = (n + (ready.map mkIntakeTask).countP (fun t => decide (t.Marker ∈ markers)),
       l ++ (ready.map mkIntakeTask).filter (fun t => !decide (t.Marker ∈ markers))) := by
  intro ready
  induction ready with
  | nil =>
    intro n l
    simp
  | cons b t ih =>
    intro n l
    rw [List.foldl_cons]
    by_cases hb : (mkIntakeTask b).Marker ∈ markers
    · show List.foldl _ (if (mkIntakeTask b).Marker ∈ markers then (n + 1, l)
        else (n, l ++ [mkIntakeTask b])) t = _
      rw [if_pos hb, ih, List.map_cons, List.countP_cons, List.filter_cons]
      simp [hb, Prod.ext_iff]
      try omega
    · show List.foldl _ (if (mkIntakeTask b).Marker ∈ markers then (n + 1, l)
        else (n, l ++ [mkIntakeTask b])) t = _
      rw [if_neg hb, ih, List.map_cons, List.countP_cons, List.filter_cons]
      simp [hb, Prod.ext_iff, List.append_assoc]
      try omega

/-- The intake stage computes exactly a marker-membership partition of the
ready batches: the skipped count and the enqueued tasks in list order. -/
theorem enqueueIntakeTasks_eq (ready : List BatchPath) (markers : List Str) :
    enqueueIntakeTasks ready markers =
      ((ready.map mkIntakeTask).countP (fun t => decide (t.Marker ∈ markers)),
       (ready.map mkIntakeTask).filter (fun t => !decide (t.Marker ∈ markers))) := by
  unfold enqueueIntakeTasks
  simpa using enqueueIntakeTasks_go markers ready 0 []

theorem buildBatches_some {aid : Str} : ∀ {rb : List BatchPath} {bs : List Batch},
    buildBatches aid rb = some bs →
    bs = rb.map (fun b => (⟨b.ID, b.Time⟩ : Batch)) := by
  intro rb
  induction rb with
  | nil =>
    intro bs h
    simp only [buildBatches] at h
    simpa using (Option.some.inj h).symm
  | cons b t ih =>
    intro bs h
    simp only [buildBatches] at h
    split_ifs at h
    cases hx : buildBatches aid t with
    | none =>
      rw [hx] at h
      exact Option.noConfusion h
    | some l =>
      rw [hx] at h
      simp only [Option.map_some'] at h
      obtain rfl := (Option.some.inj h).symm
      rw [List.map_cons, ← ih hx]

theorem buildBatches_mismatch {aid : Str} : ∀ {rb : List BatchPath},
    (∃ b ∈ rb, b.AggregationID ≠ aid) → buildBatches aid rb = none := by
  intro rb
  induction rb with
  | nil =>
    intro h
    simp at h
  | cons b t ih =>
    intro h
    simp only [buildBatches]
    by_cases hb : aid ≠ b.AggregationID
    · rw [if_pos hb]
    · rw [if_neg hb]
      push_neg at hb
      have hrest : ∃ x ∈ t, x.AggregationID ≠ aid := by
        rcases h with ⟨x, hx, hxa⟩
        rcases List.mem_cons.mp hx with rfl | hx'
        · exact absurd hb.symm hxa
        · exact ⟨x, hx', hxa⟩
      rw [ih hrest]
      rfl

theorem enqueueAggregationTask_enqueued {aid : Str} {rb : List BatchPath} {w : Interval}
    {markers : List Str} {t : Aggregation}
    (h : enqueueAggregationTask aid rb w markers = some (some t)) :
    ∃ bs, buildBatches aid rb = some bs ∧ t = mkAggregationTask aid w bs := by
  simp only [enqueueAggregationTask] at h
  split_ifs at h with hlen
  · simp at h
  · split at h
    next => exact Option.noConfusion h
    next bs hbs =>
      split_ifs at h with hm
      · simp at h
      · refine ⟨bs, hbs, ?_⟩
        have := Option.some.inj h
        exact (Option.some.inj this).symm

/-- Inversion of one scheduleTasksModel run on success. -/
theorem scheduleTasksModel_inv {cfg : ScheduleConfig} {res : RunResult}
    (h : scheduleTasksModel cfg = some res) :
    res.intakeInterval = ⟨cfg.clock - cfg.maxAge, cfg.clock + hours24⟩ ∧
    res.aggInterval = AggregationInterval cfg.clock cfg.aggregationPeriod cfg.gracePeriod ∧
    ReadyBatches (cfg.intakeFiles res.intakeInterval) tagBatch = some res.intakeBatches ∧
    res.intakesSkipped
      = (enqueueIntakeTasks res.intakeBatches (cfg.intakeMarkers res.intakeInterval)).1 ∧
    res.enqueuedIntakeTasks
      = (enqueueIntakeTasks res.intakeBatches (cfg.intakeMarkers res.intakeInterval)).2 := by
  simp only [scheduleTasksModel] at h
  split at h
  next => exact Option.noConfusion h
  next ib hib =>
    split at h
    next => exact Option.noConfusion h
    next ob hob =>
      split at h
      next => exact Option.noConfusion h
      next pb hpb =>
        split at h
        next => exact Option.noConfusion h
        next ar har =>
          obtain rfl := (Option.some.inj h).symm
          exact ⟨rfl, rfl, hib, rfl, rfl⟩

/-! ### Claims C1, C2, C6, C7, C9, C10 -/

/-- Claim C1: the batches placed in the aggregate task are exactly the peer
validation batches whose batch ID also appears among the own-validation
batches, in peer-list order. -/
theorem claim_C1_aggregate_batches_intersection (own peer : List BatchPath)
    (aid : Str) (w : Interval) (markers : List Str) (t : Aggregation)
    (h : enqueueAggregationTask aid (aggregationBatchesOf own peer) w markers
      = some (some t)) :
    t.Batches = (peer.filter (fun p => decide (p.ID ∈ own.map BatchPath.ID))).map
      (fun p => (⟨p.ID, p.Time⟩ : Batch)) := by
  obtain ⟨bs, hbs, rfl⟩ := enqueueAggregationTask_enqueued h
  have hmap := buildBatches_some hbs
  rw [aggregationBatchesOf_eq_filter] at hmap
  exact hmap

/-- Witness for claim C1: own validations A, B, C against peer validations
B, C, D yield an aggregate task over exactly B, C in peer order. -/
theorem claim_C1_witness :
    (mkAggregationTask aidC1 ⟨0, 1⟩ [⟨"B".toList, 7⟩, ⟨"C".toList, 7⟩]).Batches
      = (peerC1.filter (fun p => decide (p.ID ∈ ownC1.map BatchPath.ID))).map
          (fun p => (⟨p.ID, p.Time⟩ : Batch)) :=
  claim_C1_aggregate_batches_intersection ownC1 peerC1 aidC1 ⟨0, 1⟩ []
    (mkAggregationTask aidC1 ⟨0, 1⟩ [⟨"B".toList, 7⟩, ⟨"C".toList, 7⟩]) (by decide)

/-- Claim C2: a marker is written only by the completion callback of an
enqueued task, only when the publish reported a nil error, and only for
that task's marker; on a publish error no marker is written. -/
theorem claim_C2_marker_only_on_confirmed_publish (cfg : ScheduleConfig)
    (res : RunResult) (errI : IntakeBatch → Option Unit)
    (errA : Aggregation → Option Unit) (m : Str)
    (_hrun : scheduleTasksModel cfg = some res) :
    (m ∈ runIntakeMarkersWritten res errI →
      ∃ t, t ∈ res.enqueuedIntakeTasks ∧ errI t = none ∧ m = t.Marker) ∧
    (m ∈ runAggMarkersWritten res errA →
      ∃ t, res.aggResult = some t ∧ errA t = none ∧ m = t.Marker) := by
  constructor
  · intro hm
    obtain ⟨t, ht, hcb⟩ := List.mem_filterMap.mp hm
    cases he : errI t with
    | some e =>
      rw [intakeTaskCallback.eq_def, he] at hcb
      exact Option.noConfusion hcb
    | none =>
      rw [intakeTaskCallback.eq_def, he] at hcb
      exact ⟨t, ht, he, (Option.some.inj hcb).symm⟩
  · intro hm
    unfold runAggMarkersWritten at hm
    split at hm
    next => simp at hm
    next t hres =>
      cases he : errA t with
      | some e =>
        rw [aggregationTaskCallback.eq_def, he] at hm
        simp at hm
      | none =>
        rw [aggregationTaskCallback.eq_def, he] at hm
        simp at hm
        exact ⟨t, hres, he, hm⟩

/-- Witness for claim C2 at a run enqueueing one intake task whose publish
is confirmed. -/
theorem claim_C2_witness :
    ((mkIntakeTask bpC2).Marker ∈ runIntakeMarkersWritten resC2 (fun _ => none) →
      ∃ t, t ∈ resC2.enqueuedIntakeTasks ∧ (fun _ => none : IntakeBatch → Option Unit) t = none
        ∧ (mkIntakeTask bpC2).Marker = t.Marker) ∧
    ((mkIntakeTask bpC2).Marker ∈ runAggMarkersWritten resC2 (fun _ => none) →
      ∃ t, resC2.aggResult = some t ∧ (fun _ => none : Aggregation → Option Unit) t = none
        ∧ (mkIntakeTask bpC2).Marker = t.Marker) :=
  claim_C2_marker_only_on_confirmed_publish cfgC2 resC2 (fun _ => none) (fun _ => none)
    (mkIntakeTask bpC2).Marker (by decide)

/-- Claim C6: the intake tasks enqueued by a run are exactly those of the
ready batches whose marker is not among the observed markers (in order),
the skipped counter counts the others, and consequently the enqueued set is
disjoint from the observed marker set. -/
theorem claim_C6_skip_marked (cfg : ScheduleConfig) (res : RunResult)
    (h : scheduleTasksModel cfg = some res) :
    res.enqueuedIntakeTasks = (res.intakeBatches.map mkIntakeTask).filter
        (fun t => !decide (t.Marker ∈ cfg.intakeMarkers res.intakeInterval)) ∧
    res.intakesSkipped = (res.intakeBatches.map mkIntakeTask).countP
        (fun t => decide (t.Marker ∈ cfg.intakeMarkers res.intakeInterval)) ∧
    ∀ t ∈ res.enqueuedIntakeTasks, t.Marker ∉ cfg.intakeMarkers res.intakeInterval := by
  obtain ⟨-, -, -, hskip, henq⟩ := scheduleTasksModel_inv h
  rw [enqueueIntakeTasks_eq] at hskip henq
  refine ⟨henq, hskip, ?_⟩
  intro t ht hmem
  rw [henq] at ht
  have := List.of_mem_filter ht
  simp [hmem] at this

/-- Witness for claim C6 at a run whose single ready batch has its marker
already observed: nothing is enqueued and one batch is skipped. -/
theorem claim_C6_witness :
    resC6.enqueuedIntakeTasks = (resC6.intakeBatches.map mkIntakeTask).filter
        (fun t => !decide (t.Marker ∈ cfgC6.intakeMarkers resC6.intakeInterval)) ∧
    resC6.intakesSkipped = (resC6.intakeBatches.map mkIntakeTask).countP
        (fun t => decide (t.Marker ∈ cfgC6.intakeMarkers resC6.intakeInterval)) ∧
    ∀ t ∈ resC6.enqueuedIntakeTasks, t.Marker ∉ cfgC6.intakeMarkers resC6.intakeInterval :=
  claim_C6_skip_marked cfgC6 resC6 (by decide)

/-- Claim C7: with an empty intersected batch list, or with the aggregate
task's marker among the observed markers, enqueueAggregationTask returns
success without enqueueing anything. -/
theorem claim_C7_skip_empty_or_marked (aid : Str) (rb : List BatchPath)
    (w : Interval) (markers : List Str) (bs : List Batch)
    (h : rb = [] ∨ (buildBatches aid rb = some bs ∧
      (mkAggregationTask aid w bs).Marker ∈ markers)) :
    enqueueAggregationTask aid rb w markers = some none := by
  rcases h with rfl | ⟨hbs, hm⟩
  · rfl
  · simp only [enqueueAggregationTask]
    by_cases hlen : rb.length = 0
    · rw [if_pos hlen]
    · rw [if_neg hlen, hbs]
      show (if (mkAggregationTask aid w bs).Marker ∈ markers then some none
        else some (some (mkAggregationTask aid w bs))) = some none
      rw [if_pos hm]

/-- Witness for claim C7 at a one-batch list whose aggregate marker is
already present. -/
theorem claim_C7_witness :
    enqueueAggregationTask aidC7 [bpC7] wC7 [(mkAggregationTask aidC7 wC7 bsC7).Marker]
      = some none :=
  claim_C7_skip_empty_or_marked aidC7 [bpC7] wC7
    [(mkAggregationTask aidC7 wC7 bsC7).Marker] bsC7 (Or.inr ⟨by decide, by decide⟩)

/-- Claim C9: the interval used to list intake batch files runs from now
minus maxAge to now plus 24 hours, with now taken from the injected
clock. -/
theorem claim_C9_intake_interval (cfg : ScheduleConfig) (res : RunResult)
    (h : scheduleTasksModel cfg = some res) :
    res.intakeInterval.Begin = cfg.clock - cfg.maxAge ∧
    res.intakeInterval.End = cfg.clock + 24 * 3600 * 1000000000 := by
  have hinv := (scheduleTasksModel_inv h).1
  rw [hinv]
  exact ⟨rfl, rfl⟩

/-- Witness for claim C9 at a concrete run. -/
theorem claim_C9_witness :
    resC9.intakeInterval.Begin = cfgC9.clock - cfgC9.maxAge ∧
    resC9.intakeInterval.End = cfgC9.clock + 24 * 3600 * 1000000000 :=
  claim_C9_intake_interval cfgC9 resC9 (by decide)

/-- Claim C10: a non-empty ready list containing a batch with a foreign
aggregation ID makes enqueueAggregationTask fail with an error, before the
marker set is consulted and before anything is enqueued, and its callback
writes no marker. -/
theorem claim_C10_foreign_aggregation_id (aid : Str) (rb : List BatchPath)
    (w : Interval) (markers : List Str) (errA : Aggregation → Option Unit)
    (h : ∃ b ∈ rb, b.AggregationID ≠ aid) :
    enqueueAggregationTask aid rb w markers = none ∧
    aggCallMarkersWritten (enqueueAggregationTask aid rb w markers) errA = [] := by
  have hnone : enqueueAggregationTask aid rb w markers = none := by
    obtain ⟨b, hb, hba⟩ := h
    have hlen : ¬rb.length = 0 := by
      cases rb
      · simp at hb
      · simp
    simp only [enqueueAggregationTask]
    rw [if_neg hlen, buildBatches_mismatch ⟨b, hb, hba⟩]
  refine ⟨hnone, ?_⟩
  rw [hnone]
  rfl

/-- Witness for claim C10 at a one-batch list carrying a foreign
aggregation ID. -/
theorem claim_C10_witness :
    enqueueAggregationTask aidC7 [bpC10] wC7 [] = none ∧
    aggCallMarkersWritten (enqueueAggregationTask aidC7 [bpC10] wC7 [])
      (fun _ => none) = [] :=
  claim_C10_foreign_aggregation_id aidC7 [bpC10] wC7 [] (fun _ => none) (by decide)

end PrioWM
